import Mathlib

/-!
# Verification of the Klasseneinteilung web backend core

Shallow embedding of the separation-repair, quality-assessment, progress
reporting and orchestration code of the backend
(`backend/api/routes.py`, `backend/pruefungen/qualitaet.py`,
`backend/optimierung_wrapper.py`), together with proofs about it.

Modelling conventions:
* student ids and class indices are `Nat`;
* the roster DataFrame is reduced to what the separation logic reads from it:
  the index (student ids) and the integer contents of the `Trennen_Von*`
  columns (`_safe_int` already maps NaN/blank to `0`);
* a Python `set` of pairs is modelled as a duplicate-free list in
  first-insertion order (iteration order of a Python `set` is opaque but
  fixed within a run; all theorems below are insensitive to that order);
* a Python `dict` is modelled as an association list with its lookup;
* Python `float` scores are modelled as rationals;
* a Python statement that raises an exception is modelled by `Option`/`Except`
  returning `none`/`error`.
-/

namespace Klasseneinteilung

/-- A roster row reduced to what the separation logic reads: the student id
(the DataFrame index) and the values of the sorted `Trennen_Von*` columns. -/
abbrev Df := List (Nat × List Nat)

/-- `df.index` — the list of student ids. -/
def dfIndex (df : Df) : List Nat := df.map Prod.fst

/-- Inserting `frozenset({a, b})` into the Python `set` of pairs: the set is
modelled as a duplicate-free list in first-insertion order. -/
def fuegePaarEin (paare : List (Nat × Nat)) (p : Nat × Nat) : List (Nat × Nat) :=
  if p ∈ paare then paare else paare ++ [p]

/-- `_alle_trennungspaare` (routes.py): collects every separation pair from all
`Trennen_Von*` columns; an entry counts when it is positive, a roster id and
not the row's own id; each pair is stored sorted as `(min, max)`. -/
def alleTrennungspaare (df : Df) : List (Nat × Nat) :=
  df.foldl
    (fun paare zeile =>
      zeile.2.foldl
        (fun paare tv =>
          if 0 < tv ∧ tv ∈ dfIndex df ∧ tv ≠ zeile.1 then
            fuegePaarEin paare (min zeile.1 tv, max zeile.1 tv)
          else paare)
        paare)
    []

/-- Lookup in an association list, modelling Python `dict` access. -/
def sucheWert (m : List (Nat × Nat)) (k : Nat) : Option Nat :=
  match m with
  | [] => none
  | e :: rest => if e.1 = k then some e.2 else sucheWert rest k

/-- Second half of one `trenn_map` building step: `b` (the larger member of
the sorted pair) receives partner `a` unless it already has one. -/
def trennMapSchrittB (m1 : List (Nat × Nat)) (p : Nat × Nat) :
    List (Nat × Nat) :=
  if (sucheWert m1 (max p.1 p.2)).isNone then
    m1 ++ [(max p.1 p.2, min p.1 p.2)]
  else m1

/-- One step of building `trenn_map` in `_df_fuer_submodul` (routes.py):
`a, b = sorted(paar)`; each of `a` and `b` receives the partner unless it
already has one. -/
def trennMapSchritt (m : List (Nat × Nat)) (p : Nat × Nat) : List (Nat × Nat) :=
  trennMapSchrittB
    (if (sucheWert m (min p.1 p.2)).isNone then
      m ++ [(min p.1 p.2, max p.1 p.2)]
    else m) p

/-- The `trenn_map` of `_df_fuer_submodul`: every student that occurs in some
pair is assigned its first partner (in pair-iteration order). -/
def baueTrennMap (paare : List (Nat × Nat)) : List (Nat × Nat) :=
  paare.foldl trennMapSchritt []

/-- `_df_fuer_submodul` (routes.py): drops all `Trennen_Von*` columns and
replaces them by a single consolidated, bidirectional `Trennen_Von` column
(`0` where the student has no separation partner). -/
def dfFuerSubmodul (df : Df) : Df :=
  let m := baueTrennMap (alleTrennungspaare df)
  df.map (fun zeile => (zeile.1, [(sucheWert m zeile.1).getD 0]))

/-! ## `_erzwinge_trennungen` (routes.py) -/

/-- `baue_zuordnung`: student id → class index.  The Python dict is filled
class by class, so a later class overwrites an earlier one; the fold below has
exactly that last-wins behaviour. -/
def zuordnung (klassen : List (List Nat)) (sid : Nat) : Option Nat :=
  (List.range klassen.length).foldl
    (fun acc ki => if sid ∈ klassen.getD ki [] then some ki else acc)
    none

/-- The violated pairs of the current assignment, in pair-iteration order;
each violated pair is reported sorted (`a, b = sorted(paar)`). -/
def verletztePaare (paare : List (Nat × Nat)) (klassen : List (List Nat)) :
    List (Nat × Nat) :=
  (paare.map (fun p => (min p.1 p.2, max p.1 p.2))).filter
    (fun p =>
      match zuordnung klassen p.1, zuordnung klassen p.2 with
      | some ka, some kb => ka == kb
      | _, _ => false)

/-- `neue_verletzungen`: how many separation partners of `schueler` already
sit in candidate class `zi`. -/
def neueVerletzungen (paare : List (Nat × Nat)) (klassen : List (List Nat))
    (schueler zi : Nat) : Nat :=
  (paare.filter
    (fun p =>
      if schueler = p.1 then decide (p.2 ∈ klassen.getD zi [])
      else if schueler = p.2 then decide (p.1 ∈ klassen.getD zi [])
      else false)).length

/-- The fixed scan order of the candidate loops: students `(a, b)` outside,
ascending class indices inside. -/
def kandidatenOrdnung (n a b : Nat) : List (Nat × Nat) :=
  [a, b].flatMap (fun s => (List.range n).map (fun zi => (s, zi)))

/-- The loop body of the candidate-selection double loop of
`_erzwinge_trennungen`: skip the source class, skip moves that create new
violations, keep the first candidate whose target class is strictly smaller
than the best so far. -/
def waehleSchritt (paare : List (Nat × Nat)) (klassen : List (List Nat))
    (klasseIdx : Nat) (best : Option (Nat × Nat)) (c : Nat × Nat) :
    Option (Nat × Nat) :=
  if c.2 = klasseIdx then best
  else if neueVerletzungen paare klassen c.1 c.2 ≠ 0 then best
  else
    match best with
    | none => some c
    | some d =>
      if (klassen.getD c.2 []).length < (klassen.getD d.2 []).length then
        some c
      else best

/-- The candidate-selection double loop of `_erzwinge_trennungen`. -/
def waehleBeste (paare : List (Nat × Nat)) (klassen : List (List Nat))
    (klasseIdx a b : Nat) : Option (Nat × Nat) :=
  (kandidatenOrdnung klassen.length a b).foldl
    (waehleSchritt paare klassen klasseIdx) none

/-- Keep the earlier of two candidates unless the later one has a strictly
smaller key — the accumulator step of a first-minimum scan. -/
def minFold {α : Type} (key : α → Nat) (best : Option α) (c : α) : Option α :=
  match best with
  | none => some c
  | some e => if key c < key e then some c else some e

/-- First minimum of a list under a `Nat`-valued key: the unique element with
minimal key that comes earliest.  This is both the semantics of Python's
`min(...)` builtin (used for the fallback class) and the specification's
"minimise, tie-break first in scan order". -/
def firstMinBy {α : Type} (key : α → Nat) : List α → Option α
  | [] => none
  | c :: rest =>
    match firstMinBy key rest with
    | none => some c
    | some d => if key d < key c then some d else some c

/-- `min((i for i in range(len(klassen)) if i != klasse_idx), key=len)` —
`none` models the `ValueError` Python raises on an empty sequence. -/
def kleinsteAndereKlasse (klassen : List (List Nat)) (klasseIdx : Nat) :
    Option Nat :=
  firstMinBy (fun i => (klassen.getD i []).length)
    ((List.range klassen.length).filter (fun i => i ≠ klasseIdx))

/-- A repair-log entry.  The source stores the student id, a human-readable
name (presentational, looked up in the name columns and omitted here), the
1-based source and target class numbers, and a reason string naming the
conflicting partner (`grundSchueler` keeps that partner's id). -/
structure LogEintrag where
  schuelerId : Nat
  vonKlasse : Nat
  nachKlasse : Nat
  grundSchueler : Nat
deriving DecidableEq

/-- `klassen[i].remove(s); klassen[j].append(s)` — the actual move. -/
def verschiebeListe (klassen : List (List Nat)) (i j s : Nat) :
    List (List Nat) :=
  let k1 := klassen.set i ((klassen.getD i []).erase s)
  k1.set j ((k1.getD j []) ++ [s])

/-- The selected `(bester_schueler, beste_zielklasse)` of one pass: the
zero-new-violation minimiser when one exists, otherwise the fallback
`(b, smallest other class)`; `none` only when the fallback's `min` would
raise on an empty sequence. -/
def waehleOderNotloesung (paare : List (Nat × Nat)) (klassen : List (List Nat))
    (klasseIdx a b : Nat) : Option (Nat × Nat) :=
  match waehleBeste paare klassen klasseIdx a b with
  | some c => some c
  | none => (kleinsteAndereKlasse klassen klasseIdx).map (fun j => (b, j))

/-- `klassen[klasse_idx].remove(...)`, `klassen[...].append(...)` and the log
entry of one pass; `none` models the `ValueError` of `remove` on a missing
element. -/
def fuehreVerschiebungAus (klassen : List (List Nat)) (klasseIdx a b : Nat)
    (c : Nat × Nat) : Option (List (List Nat) × LogEintrag) :=
  if c.1 ∈ klassen.getD klasseIdx [] then
    some (verschiebeListe klassen klasseIdx c.2 c.1,
      { schuelerId := c.1
        vonKlasse := klasseIdx + 1
        nachKlasse := c.2 + 1
        grundSchueler := if c.1 = b then a else b })
  else none

/-- One pass body of `_erzwinge_trennungen` once a violated pair `(a, b)` has
been picked: look up the shared class, choose the move, perform it, emit the
log entry.  `none` models the exceptions Python can raise on the way. -/
def verschiebeSchritt (paare : List (Nat × Nat)) (klassen : List (List Nat))
    (a b : Nat) : Option (List (List Nat) × LogEintrag) :=
  (zuordnung klassen a).bind (fun klasseIdx =>
    (waehleOderNotloesung paare klassen klasseIdx a b).bind
      (fuehreVerschiebungAus klassen klasseIdx a b))

/-- The outer pass loop of `_erzwinge_trennungen`, fuelled by the remaining
pass budget.  The `Bool` records whether the loop exited through the
`break` (i.e. a pass found no violated pair). -/
def erzwingeGo (paare : List (Nat × Nat)) :
    Nat → List (List Nat) → List LogEintrag →
    Option (List (List Nat) × List LogEintrag × Bool)
  | 0, klassen, log => some (klassen, log, false)
  | fuel + 1, klassen, log =>
    match verletztePaare paare klassen with
    | [] => some (klassen, log, true)
    | q :: _ =>
      (verschiebeSchritt paare klassen q.1 q.2).bind
        (fun r => erzwingeGo paare fuel r.1 (log ++ [r.2]))

/-- `max_durchlaeufe = 100` in `_erzwinge_trennungen`. -/
def maxDurchlaeufe : Nat := 100

/-- `_erzwinge_trennungen` on an already-extracted pair set. -/
def erzwingeTrennungenPaare (paare : List (Nat × Nat))
    (einteilung : List (List Nat)) :
    Option (List (List Nat) × List LogEintrag) :=
  if paare = [] then some (einteilung, [])
  else (erzwingeGo paare maxDurchlaeufe einteilung []).map (fun r => (r.1, r.2.1))

/-- `_erzwinge_trennungen(einteilung, df)` — extracts the full pair set from
all `Trennen_Von*` columns of the original DataFrame and repairs against it. -/
def erzwingeTrennungen (df : Df) (einteilung : List (List Nat)) :
    Option (List (List Nat) × List LogEintrag) :=
  erzwingeTrennungenPaare (alleTrennungspaare df) einteilung

/-! ## Quality assessment (`backend/pruefungen/qualitaet.py`) -/

/-- The `SCHWELLEN` threshold table: metric name ↦ (gruen, orange). -/
def SCHWELLEN : List (String × ℚ × ℚ) :=
  [("geschlecht_abweichung", 2, 4),
   ("auffaelligkeit_abweichung_pct", 10, 25),
   ("migration_abweichung_pp", 5, 10),
   ("jungen_abweichung", 1, 3),
   ("wunsch_quote_pct", 75, 50),
   ("trennungen_missachtet", 0, 0),
   ("klassengroesse_abweichung", 1, 2)]

/-- `SCHWELLEN[name]` (the keys used in the source are all present). -/
def schwelle (name : String) : ℚ × ℚ :=
  ((SCHWELLEN.find? (fun e => e.1 == name)).map Prod.snd).getD (0, 0)

/-- `_ampel(wert, gruen, orange, niedriger_ist_besser)`. -/
def ampel (wert gruen orange : ℚ) (niedrigerIstBesser : Bool) : String :=
  if niedrigerIstBesser then
    if wert ≤ gruen then "gruen"
    else if wert ≤ orange then "orange"
    else "rot"
  else
    if gruen ≤ wert then "gruen"
    else if orange ≤ wert then "orange"
    else "rot"

/-- `(klassen_df["Geschlecht"] == "m").sum()` over one class's gender column. -/
def zaehleMaennlich (geschlechter : List String) : Nat :=
  (geschlechter.filter (fun g => g == "m")).length

/-- `(klassen_df["Geschlecht"] == "w").sum()` over one class's gender column. -/
def zaehleWeiblich (geschlechter : List String) : Nat :=
  (geschlechter.filter (fun g => g == "w")).length

/-- `abs(kp.maennlich - kp.weiblich)`. -/
def geschlechtDifferenz (geschlechter : List String) : Nat :=
  ((zaehleMaennlich geschlechter : Int) - (zaehleWeiblich geschlechter : Int)).natAbs

/-- The gender metric of one class in `pruefe_einteilung` (step 1):
difference of the male and female counts, rated against
`SCHWELLEN["geschlecht_abweichung"]` with the default lower-is-better flag. -/
def geschlechtAmpel (geschlechter : List String) : String :=
  ampel (geschlechtDifferenz geschlechter : ℚ)
    (schwelle "geschlecht_abweichung").1 (schwelle "geschlecht_abweichung").2 true

/-- The `Trennen_Von*` row of one student (empty when the id is missing). -/
def dfZeile (df : Df) (sid : Nat) : List Nat :=
  ((df.find? (fun z => z.1 == sid)).map Prod.snd).getD []

/-- The separation metric of one class in `pruefe_einteilung` (step 6):
`(trennungen_gesamt, trennungen_missachtet)`, counting over ALL
`Trennen_Von*` columns of the original DataFrame. -/
def zaehleKlassenTrennungen (df : Df) (klasseIds : List Nat) : Nat × Nat :=
  klasseIds.foldl
    (fun z sid =>
      (dfZeile df sid).foldl
        (fun z tv =>
          if 0 < tv then (z.1 + 1, if tv ∈ klasseIds then z.2 + 1 else z.2)
          else z)
        z)
    (0, 0)

/-- The separation rating of one class: it is a function of the class's
violation count alone (every other metric is rated by its own `_ampel`
call), against `SCHWELLEN["trennungen_missachtet"] = (0, 0)`. -/
def trennungenAmpel (missachtet : Nat) : String :=
  ampel (missachtet : ℚ)
    (schwelle "trennungen_missachtet").1 (schwelle "trennungen_missachtet").2 true

/-- `_get_class_name` (qualitaet.py): 0-based class index → alphabetic class
name, as the list of characters the Python loop prepends. -/
def getClassNameListe (n : Nat) : List Char :=
  if h : n < 26 then [Char.ofNat (65 + n)]
  else getClassNameListe (n / 26 - 1) ++ [Char.ofNat (65 + n % 26)]
termination_by n
decreasing_by omega

/-- `_get_class_name` as the string the Python function returns. -/
def getClassName (n : Nat) : String :=
  String.mk (getClassNameListe n)

/-! ## Progress reporting (`backend/optimierung_wrapper.py`) -/

/-- `FORTSCHRITT_INTERVALL = 500`. -/
def FORTSCHRITT_INTERVALL : Nat := 500

/-- `if score > bester_score_tracker[0]: bester_score_tracker[0] = score` —
the running best; `none` is the initial `float("-inf")`, below every score. -/
def bMax (b : Option ℚ) (score : ℚ) : ℚ :=
  match b with
  | none => score
  | some v => if v < score then score else v

/-- The observable behaviour of `bewertung_mit_fortschritt`: fed the sequence
of scores its wrapped scoring function computes (one per call), it produces
the list of `(iteration, aktueller_score, bester_score)` triples handed to the
progress callback.  The first argument is the number of previous calls
(`zaehler[0] - 1` after the increment, i.e. the reported iteration). -/
def fortschrittAux : Nat → Option ℚ → List ℚ → List (Nat × ℚ × ℚ)
  | _, _, [] => []
  | z, b, score :: rest =>
    let neu := bMax b score
    (if 0 < z ∧ z % FORTSCHRITT_INTERVALL = 0 then [(z, score, neu)] else [])
      ++ fortschrittAux (z + 1) (some neu) rest

/-- The callback invocations of one optimisation run. -/
def bewertungMitFortschritt (scores : List ℚ) : List (Nat × ℚ × ℚ) :=
  fortschrittAux 0 none scores

/-! ## The `/api/optimierung` endpoint (`starte_optimierung`, routes.py) -/

/-- The run configuration of `starte_optimierung` (query parameters). -/
structure Konfiguration where
  anzahlKlassen : Int
  iterationen : Int
  startTemp : ℚ
  coolingRate : ℚ
deriving DecidableEq

/-- Everything `starte_optimierung` does before the search starts: the only
check is that a DataFrame is loaded (`_state["df"] is None` → HTTP 400); the
configuration is then passed to the search unchanged. -/
def starteOptimierungEingang (dfGeladen : Bool) (cfg : Konfiguration) :
    Except String Konfiguration :=
  if dfGeladen then Except.ok cfg
  else Except.error "Bitte zuerst eine Datei hochladen."

/-- The separation data flow of `starte_optimierung`: the annealing search
(external submodule, abstracted as `suche`) receives the consolidated
DataFrame `_df_fuer_submodul(df)`, while `_erzwinge_trennungen` receives the
original DataFrame with all `Trennen_Von*` columns. -/
def starteOptimierungKern (df : Df) (suche : Df → List (List Nat)) :
    Option (List (List Nat) × List LogEintrag) :=
  erzwingeTrennungen df (suche (dfFuerSubmodul df))

/-! ## Excel export (`exportiere_excel`, routes.py) -/

/-- The fields of the `KlassenPruefung` dataclass (qualitaet.py), in
declaration order. -/
def klassenPruefungFelder : List String :=
  ["klasse_name", "anzahl_schueler",
   "maennlich", "weiblich", "geschlecht_differenz", "geschlecht_ampel",
   "auffaelligkeit_summe", "auffaelligkeit_durchschnitt",
   "auffaelligkeit_ideal", "auffaelligkeit_abweichung_pct",
   "auffaelligkeit_ampel",
   "migration_anzahl", "migration_anteil_pct", "migration_stufen_anteil_pct",
   "migration_abweichung_pp", "migration_ampel",
   "jungen_ideal", "jungen_abweichung", "jungen_ampel",
   "wuensche_gesamt", "wuensche_erfuellt", "wuensche_nicht_erfuellt",
   "wunsch_quote_pct", "wunsch_ampel",
   "trennungen_gesamt", "trennungen_missachtet", "trennungen_ampel",
   "nicht_erfuellte_wuensche"]

/-- The attributes `exportiere_excel` reads from each `KlassenPruefung` when
building the `Pruefung` sheet, in access order (the dict-literal order). -/
def exportZugriffsFelder : List String :=
  ["klasse_name", "anzahl_schueler",
   "maennlich", "weiblich", "geschlecht_differenz", "geschlecht_ampel",
   "auffaelligkeit_summe", "auffaelligkeit_durchschnitt",
   "auffaelligkeit_ampel",
   "migration_anteil_pct", "migration_abweichung_pp", "migration_ampel",
   "wuensche_erfuellt", "wuensche_nicht_erfuellt", "wunsch_quote_pct",
   "wunsch_ampel",
   "trennungen_missachtet", "trennungen_ampel",
   "ohne_laufpartner", "laufpartner_ampel"]

/-- Python attribute access `kp.<feld>` on a `KlassenPruefung` instance:
succeeds exactly for the dataclass's fields, otherwise `AttributeError`
(modelled as `Except.error` carrying the missing attribute name). -/
def holeAttribut (feld : String) : Except String Unit :=
  if feld ∈ klassenPruefungFelder then Except.ok () else Except.error feld

/-- Building one row of the `Pruefung` sheet: the dict literal evaluates its
values left to right; the first missing attribute raises. -/
def baueExportZeile : List String → Except String Unit
  | [] => Except.ok ()
  | f :: rest =>
    match holeAttribut f with
    | Except.ok _ => baueExportZeile rest
    | Except.error e => Except.error e

/-- The `for kp in pruef.klassen` loop of the `Pruefung` sheet, over the
number of stored per-class results. -/
def exportPruefDaten : Nat → Except String Unit
  | 0 => Except.ok ()
  | n + 1 =>
    match baueExportZeile exportZugriffsFelder with
    | Except.ok _ => exportPruefDaten n
    | Except.error e => Except.error e

/-! ## Specification-side definitions

These definitions are written from the specification's words, to be compared
against the source-derived definitions above. -/

/-- The specification's candidate set for one repair pass: moves of `a` or
`b` to another class that create zero new separation violations, enumerated
in the fixed scan order (students `(a, b)`, then ascending class indices). -/
def spezKandidaten (paare : List (Nat × Nat)) (klassen : List (List Nat))
    (klasseIdx a b : Nat) : List (Nat × Nat) :=
  (kandidatenOrdnung klassen.length a b).filter
    (fun c =>
      decide (c.2 ≠ klasseIdx) && decide (neueVerletzungen paare klassen c.1 c.2 = 0))

/-- The specification's `InvalidConfiguration` condition: class count outside
`[1, roster_size]`, non-positive iteration count, or cooling rate outside
`(0, 1)`. -/
def spezUngueltigeKonfiguration (rosterGroesse : Int) (cfg : Konfiguration) :
    Prop :=
  cfg.anzahlKlassen < 1 ∨ rosterGroesse < cfg.anzahlKlassen ∨
    cfg.iterationen ≤ 0 ∨ cfg.coolingRate ≤ 0 ∨ 1 ≤ cfg.coolingRate

/-- The students occurring in some separation pair. -/
def paarSupport (paare : List (Nat × Nat)) : List Nat :=
  paare.flatMap (fun p => [p.1, p.2])

/-- Whether `x` and `y` must be separated (pairs are stored sorted). -/
def getrennt (paare : List (Nat × Nat)) (x y : Nat) : Bool :=
  (min x y, max x y) ∈ paare

/-- Whether the separation graph contains a mutually-separated triple, i.e.
whether its maximum clique size exceeds 2. -/
def hatDreiClique (paare : List (Nat × Nat)) : Bool :=
  (paarSupport paare).any (fun x =>
    (paarSupport paare).any (fun y =>
      (paarSupport paare).any (fun z =>
        x ≠ y && y ≠ z && x ≠ z &&
          getrennt paare x y && getrennt paare y z && getrennt paare x z)))

/-- A base-26 letter sequence: a non-empty string of the letters A–Z
(code points 65–90). -/
def GutName (s : String) : Prop :=
  s.data ≠ [] ∧ ∀ c ∈ s.data, 65 ≤ c.toNat ∧ c.toNat ≤ 90

instance (s : String) : Decidable (GutName s) := by
  unfold GutName
  infer_instance

/-- The numeric value of a letter sequence in bijective base 26
(`A = 1, …, Z = 26`); the inverse of `getClassName` is `nameWert · - 1`. -/
def nameWert (l : List Char) : Nat :=
  l.foldl (fun acc c => acc * 26 + (c.toNat - 65 + 1)) 0

/-- The number of positive entries in all `Trennen_Von*` columns of the rows
of one class — the full separation view the Quality Assessor counts over. -/
def volleTrennEintraege (df : Df) (klasseIds : List Nat) : Nat :=
  ((klasseIds.map (fun sid => (dfZeile df sid).filter (fun tv => decide (0 < tv)))).flatten).length

/-! ## Helper lemmas -/

lemma toNat_ofNat_gueltig (m : Nat) (h : m < 55296) : (Char.ofNat m).toNat = m := by
  have hv : m.isValidChar := Or.inl h
  rw [Char.ofNat, dif_pos hv]
  rfl

lemma getClassNameListe_klein (n : Nat) (h : n < 26) :
    getClassNameListe n = [Char.ofNat (65 + n)] := by
  rw [getClassNameListe]
  simp [h]

lemma getClassNameListe_gross (n : Nat) (h : ¬ n < 26) :
    getClassNameListe n = getClassNameListe (n / 26 - 1) ++ [Char.ofNat (65 + n % 26)] := by
  rw [getClassNameListe]
  simp [h]

lemma nameWert_append_einzeln (l : List Char) (c : Char) :
    nameWert (l ++ [c]) = nameWert l * 26 + (c.toNat - 65 + 1) := by
  unfold nameWert
  rw [List.foldl_append]
  rfl

lemma nameWert_getClassNameListe (n : Nat) :
    nameWert (getClassNameListe n) = n + 1 := by
  induction n using Nat.strong_induction_on with
  | _ n ih =>
    by_cases h : n < 26
    · rw [getClassNameListe_klein n h]
      unfold nameWert
      simp only [List.foldl_cons, List.foldl_nil]
      rw [toNat_ofNat_gueltig (65 + n) (by omega)]
      omega
    · rw [getClassNameListe_gross n h]
      rw [nameWert_append_einzeln]
      rw [ih (n / 26 - 1) (by omega)]
      rw [toNat_ofNat_gueltig (65 + n % 26) (by omega)]
      have h1 : n % 26 < 26 := Nat.mod_lt _ (by omega)
      have h2 : n / 26 * 26 + n % 26 = n := by
        rw [Nat.mul_comm]
        exact Nat.div_add_mod n 26
      omega

lemma getClassNameListe_injektiv : Function.Injective getClassNameListe := by
  intro m n h
  have hm := nameWert_getClassNameListe m
  have hn := nameWert_getClassNameListe n
  rw [h, hn] at hm
  omega

lemma getClassNameListe_gut (n : Nat) :
    getClassNameListe n ≠ [] ∧
      ∀ c ∈ getClassNameListe n, 65 ≤ c.toNat ∧ c.toNat ≤ 90 := by
  induction n using Nat.strong_induction_on with
  | _ n ih =>
    by_cases h : n < 26
    · rw [getClassNameListe_klein n h]
      refine ⟨by simp, ?_⟩
      intro c hc
      simp only [List.mem_singleton] at hc
      subst hc
      rw [toNat_ofNat_gueltig (65 + n) (by omega)]
      omega
    · rw [getClassNameListe_gross n h]
      have ihx := ih (n / 26 - 1) (by omega)
      refine ⟨by simp, ?_⟩
      intro c hc
      rw [List.mem_append] at hc
      rcases hc with hc | hc
      · exact ihx.2 c hc
      · simp only [List.mem_singleton] at hc
        subst hc
        rw [toNat_ofNat_gueltig (65 + n % 26) (by omega)]
        have h1 : n % 26 < 26 := Nat.mod_lt _ (by omega)
        omega

lemma nameWert_pos (l : List Char) (h : l ≠ []) : 0 < nameWert l := by
  induction l using List.reverseRecOn with
  | nil => cases h rfl
  | append_singleton l c _ =>
    rw [nameWert_append_einzeln]
    omega

lemma getClassNameListe_nameWert :
    ∀ l : List Char, l ≠ [] → (∀ c ∈ l, 65 ≤ c.toNat ∧ c.toNat ≤ 90) →
      getClassNameListe (nameWert l - 1) = l := by
  intro l
  induction l using List.reverseRecOn with
  | nil => intro hne _; cases hne rfl
  | append_singleton l c ih =>
    intro _ hall
    have hc := hall c (by simp)
    rw [nameWert_append_einzeln]
    by_cases hl : l = []
    · subst hl
      have hW : nameWert ([] : List Char) = 0 := rfl
      rw [hW]
      have hlt : 0 * 26 + (c.toNat - 65 + 1) - 1 < 26 := by omega
      rw [getClassNameListe_klein _ hlt]
      simp only [List.nil_append]
      have hx : 65 + (0 * 26 + (c.toNat - 65 + 1) - 1) = c.toNat := by omega
      rw [hx, Char.ofNat_toNat]
    · have hm : 0 < nameWert l := nameWert_pos l hl
      have hn : nameWert l * 26 + (c.toNat - 65 + 1) - 1
          = nameWert l * 26 + (c.toNat - 65) := by omega
      rw [hn]
      have hge : ¬ nameWert l * 26 + (c.toNat - 65) < 26 := by omega
      rw [getClassNameListe_gross _ hge]
      have hdiv : (nameWert l * 26 + (c.toNat - 65)) / 26 = nameWert l := by omega
      have hmod : (nameWert l * 26 + (c.toNat - 65)) % 26 = c.toNat - 65 := by
        omega
      rw [hdiv, hmod]
      rw [ih hl (fun d hd => hall d (List.mem_append_left _ hd))]
      have hx : 65 + (c.toNat - 65) = c.toNat := by omega
      rw [hx, Char.ofNat_toNat]

lemma fortschrittAux_takt :
    ∀ (scores : List ℚ) (z : Nat) (b : Option ℚ),
      ∀ e ∈ fortschrittAux z b scores,
        0 < e.1 ∧ e.1 % FORTSCHRITT_INTERVALL = 0 := by
  intro scores
  induction scores with
  | nil => intro z b e he; simp [fortschrittAux] at he
  | cons s rest ih =>
    intro z b e he
    rw [fortschrittAux] at he
    simp only [List.mem_append] at he
    rcases he with he | he
    · by_cases hc : 0 < z ∧ z % FORTSCHRITT_INTERVALL = 0
      · rw [if_pos hc] at he
        simp only [List.mem_singleton] at he
        subst he
        exact hc
      · rw [if_neg hc] at he
        simp at he
    · exact ih (z + 1) (some (bMax b s)) e he

lemma fortschrittAux_untergrenze :
    ∀ (scores : List ℚ) (z : Nat) (v : ℚ),
      ∀ e ∈ fortschrittAux z (some v) scores, v ≤ e.2.2 := by
  intro scores
  induction scores with
  | nil => intro z v e he; simp [fortschrittAux] at he
  | cons s rest ih =>
    intro z v e he
    have hneu : v ≤ bMax (some v) s := by
      simp only [bMax]
      split <;> linarith
    rw [fortschrittAux] at he
    simp only [List.mem_append] at he
    rcases he with he | he
    · by_cases hc : 0 < z ∧ z % FORTSCHRITT_INTERVALL = 0
      · rw [if_pos hc] at he
        simp only [List.mem_singleton] at he
        subst he
        exact hneu
      · rw [if_neg hc] at he
        simp at he
    · exact le_trans hneu (ih (z + 1) (bMax (some v) s) e he)

lemma fortschrittAux_monoton :
    ∀ (scores : List ℚ) (z : Nat) (b : Option ℚ),
      ((fortschrittAux z b scores).map (fun e => e.2.2)).Pairwise
        (fun x y => x ≤ y) := by
  intro scores
  induction scores with
  | nil => intro z b; simp [fortschrittAux]
  | cons s rest ih =>
    intro z b
    rw [fortschrittAux]
    by_cases hc : 0 < z ∧ z % FORTSCHRITT_INTERVALL = 0
    · rw [if_pos hc]
      simp only [List.singleton_append, List.map_cons, List.pairwise_cons]
      refine ⟨?_, ih (z + 1) (some (bMax b s))⟩
      intro y hy
      simp only [List.mem_map] at hy
      obtain ⟨e, he, rfl⟩ := hy
      exact fortschrittAux_untergrenze rest (z + 1) (bMax b s) e he
    · rw [if_neg hc]
      simp only [List.nil_append]
      exact ih (z + 1) (some (bMax b s))

/-! ## Claim theorems -/

/-- C3, counterexample: a configuration with class count `0` (outside
`[1, roster_size]`), iteration count `-5` and cooling rate `2` is invalid per
the specification, yet `starte_optimierung` raises no error before the search:
its only fail-fast check is that a DataFrame is loaded, and it hands the
configuration to the search unchanged. -/
theorem c3_gegenbeispiel :
    spezUngueltigeKonfiguration 2 ⟨0, -5, 10, 2⟩ ∧
      starteOptimierungEingang true ⟨0, -5, 10, 2⟩ = Except.ok ⟨0, -5, 10, 2⟩ :=
  ⟨Or.inl (by decide), rfl⟩

/-- C3, amended: `starte_optimierung` performs no configuration validation at
all.  With a loaded DataFrame every configuration — however invalid per the
specification — is forwarded unchanged to the search; the only fail-fast
rejection is the missing-DataFrame HTTP 400. -/
theorem c3_amendiert (cfg : Konfiguration) :
    starteOptimierungEingang true cfg = Except.ok cfg ∧
      starteOptimierungEingang false cfg
        = Except.error "Bitte zuerst eine Datei hochladen." :=
  ⟨rfl, rfl⟩

/-- C6: over every score sequence of one optimisation run, the progress
callback is invoked only at iterations that are positive multiples of
`FORTSCHRITT_INTERVALL = 500` (never at iteration 0), and the `best_score`
argument is non-decreasing across the invocation sequence. -/
theorem c6_fortschritt (scores : List ℚ) :
    (∀ e ∈ bewertungMitFortschritt scores,
        0 < e.1 ∧ e.1 % FORTSCHRITT_INTERVALL = 0) ∧
      ((bewertungMitFortschritt scores).map (fun e => e.2.2)).Pairwise
        (fun x y => x ≤ y) :=
  ⟨fun e he => fortschrittAux_takt scores 0 none e he,
    fortschrittAux_monoton scores 0 none⟩

lemma bMax_konstant : bMax (some 1) (1 : ℚ) = 1 := by
  simp [bMax]

lemma fortschrittAux_konstant :
    ∀ (k z : Nat), fortschrittAux z (some 1) (List.replicate k (1 : ℚ))
      = ((List.range' z k).filter
          (fun i => decide (0 < i) && decide (i % FORTSCHRITT_INTERVALL = 0))).map
          (fun i => (i, (1 : ℚ), (1 : ℚ))) := by
  intro k
  induction k with
  | zero => intro z; simp [fortschrittAux]
  | succ k ih =>
    intro z
    rw [List.replicate_succ, List.range'_succ]
    rw [fortschrittAux]
    simp only [bMax_konstant]
    by_cases hz : 0 < z ∧ z % FORTSCHRITT_INTERVALL = 0
    · rw [if_pos hz, List.filter_cons_of_pos (by simp [hz.1, hz.2]), List.map_cons]
      rw [ih (z + 1)]
      rfl
    · rw [if_neg hz, List.filter_cons_of_neg ?hneg, ih (z + 1)]
      case hneg =>
        simp only [Bool.and_eq_true, decide_eq_true_eq]
        exact fun hc => hz hc
      rfl

/-- C6, witness: a run of 501 identical scores produces exactly one callback
invocation, at iteration 500 with best score 1; the cadence facts are obtained
from the theorem at that input. -/
theorem c6_fortschritt_zeuge :
    (500, (1 : ℚ), (1 : ℚ)) ∈ bewertungMitFortschritt (List.replicate 501 1) ∧
      0 < (500, (1 : ℚ), (1 : ℚ)).1 ∧
      (500, (1 : ℚ), (1 : ℚ)).1 % FORTSCHRITT_INTERVALL = 0 := by
  have hmem : (500, (1 : ℚ), (1 : ℚ)) ∈ bewertungMitFortschritt (List.replicate 501 1) := by
    rw [bewertungMitFortschritt,
      show List.replicate 501 (1 : ℚ) = 1 :: List.replicate 500 1 from rfl,
      fortschrittAux]
    rw [if_neg (by simp [FORTSCHRITT_INTERVALL])]
    rw [show bMax none (1 : ℚ) = 1 from rfl]
    rw [List.nil_append, fortschrittAux_konstant 500 1]
    refine List.mem_map.2 ⟨500, List.mem_filter.2 ⟨?_, by decide⟩, rfl⟩
    rw [List.mem_range']
    exact ⟨499, by omega, by omega⟩
  exact ⟨hmem, (c6_fortschritt (List.replicate 501 1)).1 _ hmem⟩

/-- C7: a class with 6 males and 2 females has gender difference 4 and gender
rating "orange"; and the separation rating — which by construction is a
function of the class's violation count alone — is "rot" for every violation
count of at least 1, because `SCHWELLEN["trennungen_missachtet"] = (0, 0)`. -/
theorem c7_ampeln :
    (zaehleMaennlich (List.replicate 6 "m" ++ List.replicate 2 "w") = 6 ∧
      zaehleWeiblich (List.replicate 6 "m" ++ List.replicate 2 "w") = 2 ∧
      geschlechtDifferenz (List.replicate 6 "m" ++ List.replicate 2 "w") = 4 ∧
      geschlechtAmpel (List.replicate 6 "m" ++ List.replicate 2 "w") = "orange") ∧
    ∀ missachtet : Nat, 1 ≤ missachtet → trennungenAmpel missachtet = "rot" := by
  constructor
  · refine ⟨by decide, by decide, by decide, by decide⟩
  · intro missachtet hm
    have hs : schwelle "trennungen_missachtet" = (0, 0) := by decide
    have h0 : ¬ ((missachtet : ℚ) ≤ 0) := by
      have h1 : (1 : ℚ) ≤ (missachtet : ℚ) := by exact_mod_cast hm
      linarith
    rw [trennungenAmpel, hs]
    simp [ampel, h0]

/-- C7, witness: the separation rating at violation count 1. -/
theorem c7_ampeln_zeuge :
    1 ≤ 1 ∧ trennungenAmpel 1 = "rot" :=
  ⟨le_refl 1, c7_ampeln.2 1 (le_refl 1)⟩

/-- C8: `_get_class_name` is a bijection from the non-negative integers onto
the base-26 letter sequences (non-empty strings over A–Z), with
0 → "A", 25 → "Z", 26 → "AA", 27 → "AB", 701 → "ZZ", 702 → "AAA". -/
theorem c8_klassennamen :
    Function.Injective getClassName ∧
      (∀ n, GutName (getClassName n)) ∧
      (∀ s, GutName s → ∃ n, getClassName n = s) ∧
      getClassName 0 = "A" ∧ getClassName 25 = "Z" ∧ getClassName 26 = "AA" ∧
      getClassName 27 = "AB" ∧ getClassName 701 = "ZZ" ∧
      getClassName 702 = "AAA" := by
  have v0 : getClassNameListe 0 = ['A'] := by
    rw [getClassNameListe_klein 0 (by omega)]
  have v25 : getClassNameListe 25 = ['Z'] := by
    rw [getClassNameListe_klein 25 (by omega)]
  have v26 : getClassNameListe 26 = ['A', 'A'] := by
    rw [getClassNameListe_gross 26 (by omega)]
    rw [show (26 : Nat) / 26 - 1 = 0 from by decide, v0]
    decide
  have v27 : getClassNameListe 27 = ['A', 'B'] := by
    rw [getClassNameListe_gross 27 (by omega)]
    rw [show (27 : Nat) / 26 - 1 = 0 from by decide, v0]
    decide
  have v701 : getClassNameListe 701 = ['Z', 'Z'] := by
    rw [getClassNameListe_gross 701 (by omega)]
    rw [show (701 : Nat) / 26 - 1 = 25 from by decide, v25]
    decide
  have v702 : getClassNameListe 702 = ['A', 'A', 'A'] := by
    rw [getClassNameListe_gross 702 (by omega)]
    rw [show (702 : Nat) / 26 - 1 = 26 from by decide, v26]
    decide
  refine ⟨?_, ?_, ?_, ?_, ?_, ?_, ?_, ?_, ?_⟩
  · intro m n h
    exact getClassNameListe_injektiv (congrArg String.data h)
  · intro n
    exact getClassNameListe_gut n
  · intro s hs
    refine ⟨nameWert s.data - 1, ?_⟩
    show String.mk (getClassNameListe (nameWert s.data - 1)) = s
    rw [getClassNameListe_nameWert s.data hs.1 hs.2]
  · show String.mk (getClassNameListe 0) = "A"
    rw [v0]
  · show String.mk (getClassNameListe 25) = "Z"
    rw [v25]
  · show String.mk (getClassNameListe 26) = "AA"
    rw [v26]
  · show String.mk (getClassNameListe 27) = "AB"
    rw [v27]
  · show String.mk (getClassNameListe 701) = "ZZ"
    rw [v701]
  · show String.mk (getClassNameListe 702) = "AAA"
    rw [v702]

/-- C8, witness: the surjectivity direction applied to the letter sequence
"AB". -/
theorem c8_klassennamen_zeuge :
    GutName "AB" ∧ ∃ n, getClassName n = "AB" :=
  ⟨by decide, c8_klassennamen.2.2.1 "AB" (by decide)⟩

/-- C10: for every stored quality-check result with at least one class, the
Excel export's report sheet aborts with an `AttributeError` on the attribute
`ohne_laufpartner` — that attribute and `laufpartner_ampel` are read by
`exportiere_excel` but are not fields of the `KlassenPruefung` dataclass. -/
theorem c10_export_fehler (n : Nat) (h : 0 < n) :
    "ohne_laufpartner" ∉ klassenPruefungFelder ∧
      "laufpartner_ampel" ∉ klassenPruefungFelder ∧
      exportPruefDaten n = Except.error "ohne_laufpartner" := by
  obtain ⟨m, rfl⟩ : ∃ m, n = m + 1 := ⟨n - 1, by omega⟩
  refine ⟨by decide, by decide, ?_⟩
  have hz : baueExportZeile exportZugriffsFelder
      = Except.error "ohne_laufpartner" := rfl
  rw [exportPruefDaten, hz]

/-- C10, witness: the export failure at a single stored class. -/
theorem c10_export_fehler_zeuge :
    0 < 1 ∧ exportPruefDaten 1 = Except.error "ohne_laufpartner" :=
  ⟨Nat.zero_lt_one, (c10_export_fehler 1 Nat.zero_lt_one).2.2⟩

lemma firstMinBy_cons_none {α : Type} (key : α → Nat) {c : α} {rest : List α}
    (h : firstMinBy key rest = none) : firstMinBy key (c :: rest) = some c := by
  show (match firstMinBy key rest with
    | none => some c
    | some d => if key d < key c then some d else some c) = some c
  rw [h]

lemma firstMinBy_cons_some {α : Type} (key : α → Nat) {c d : α} {rest : List α}
    (h : firstMinBy key rest = some d) :
    firstMinBy key (c :: rest) = if key d < key c then some d else some c := by
  show (match firstMinBy key rest with
    | none => some c
    | some d => if key d < key c then some d else some c) = _
  rw [h]

lemma firstMinBy_eq_none_leer {α : Type} (key : α → Nat) :
    ∀ l : List α, firstMinBy key l = none → l = [] := by
  intro l h
  cases l with
  | nil => rfl
  | cons x rest =>
    cases hrest : firstMinBy key rest with
    | none => rw [firstMinBy_cons_none key hrest] at h; cases h
    | some d =>
      rw [firstMinBy_cons_some key hrest] at h
      by_cases hk : key d < key x
      · rw [if_pos hk] at h; cases h
      · rw [if_neg hk] at h; cases h

lemma firstMinBy_mem {α : Type} (key : α → Nat) :
    ∀ (l : List α) (c : α), firstMinBy key l = some c → c ∈ l := by
  intro l
  induction l with
  | nil => intro c h; cases h
  | cons x rest ih =>
    intro c h
    cases hrest : firstMinBy key rest with
    | none =>
      rw [firstMinBy_cons_none key hrest] at h
      cases h
      exact List.mem_cons_self x rest
    | some d =>
      rw [firstMinBy_cons_some key hrest] at h
      by_cases hk : key d < key x
      · rw [if_pos hk] at h
        cases h
        exact List.mem_cons_of_mem x (ih c hrest)
      · rw [if_neg hk] at h
        cases h
        exact List.mem_cons_self x rest

lemma firstMinBy_kleinste {α : Type} (key : α → Nat) :
    ∀ (l : List α) (c : α), firstMinBy key l = some c →
      ∀ d ∈ l, key c ≤ key d := by
  intro l
  induction l with
  | nil => intro c h; cases h
  | cons x rest ih =>
    intro c h d hd
    rcases List.mem_cons.1 hd with rfl | hd
    · cases hrest : firstMinBy key rest with
      | none =>
        rw [firstMinBy_cons_none key hrest] at h
        cases h
        exact le_refl _
      | some m =>
        rw [firstMinBy_cons_some key hrest] at h
        by_cases hk : key m < key d
        · rw [if_pos hk] at h; cases h; omega
        · rw [if_neg hk] at h; cases h; exact le_refl _
    · cases hrest : firstMinBy key rest with
      | none =>
        rw [firstMinBy_eq_none_leer key rest hrest] at hd
        cases hd
      | some m =>
        have hm := ih m hrest d hd
        rw [firstMinBy_cons_some key hrest] at h
        by_cases hk : key m < key x
        · rw [if_pos hk] at h; cases h; exact hm
        · rw [if_neg hk] at h; cases h; omega

lemma foldl_if_filter {α β : Type} (p : α → Bool) (g : β → α → β) :
    ∀ (l : List α) (acc : β),
      l.foldl (fun b c => if p c then g b c else b) acc
        = (l.filter p).foldl g acc := by
  intro l
  induction l with
  | nil => intro acc; rfl
  | cons c rest ih =>
    intro acc
    by_cases hc : p c
    · rw [List.foldl_cons, if_pos hc, List.filter_cons_of_pos hc,
        List.foldl_cons, ih]
    · rw [List.foldl_cons, if_neg (by simp [hc]),
        List.filter_cons_of_neg (by simp [hc]), ih]

lemma minFold_leer {α : Type} (key : α → Nat) (c : α) :
    minFold key none c = some c := rfl

lemma minFold_voll {α : Type} (key : α → Nat) (d c : α) :
    minFold key (some d) c = if key c < key d then some c else some d := rfl

lemma foldl_min_some {α : Type} (key : α → Nat) :
    ∀ (l : List α) (d : α),
      l.foldl (minFold key) (some d) = firstMinBy key (d :: l) := by
  intro l
  induction l with
  | nil =>
    intro d
    rw [List.foldl_nil, @firstMinBy_cons_none α key d [] rfl]
  | cons c rest ih =>
    intro d
    rw [List.foldl_cons, minFold_voll]
    have hinit : (if key c < key d then some c else some d)
        = some (if key c < key d then c else d) := by
      by_cases h : key c < key d
      · rw [if_pos h, if_pos h]
      · rw [if_neg h, if_neg h]
    rw [hinit, ih (if key c < key d then c else d)]
    by_cases h2 : key c < key d
    · rw [if_pos h2]
      cases hcr : firstMinBy key (c :: rest) with
      | none => exact absurd (firstMinBy_eq_none_leer key _ hcr) (by simp)
      | some m =>
        have hle : key m ≤ key c :=
          firstMinBy_kleinste key _ m hcr c (by simp)
        rw [@firstMinBy_cons_some _ key d m (c :: rest) hcr,
          if_pos (by omega)]
    · rw [if_neg h2]
      cases hrest : firstMinBy key rest with
      | none =>
        rw [firstMinBy_cons_none key hrest,
          @firstMinBy_cons_some _ key d c (c :: rest)
            (firstMinBy_cons_none key hrest),
          if_neg h2]
      | some m =>
        by_cases h1 : key m < key c
        · have hinner : firstMinBy key (c :: rest) = some m := by
            rw [firstMinBy_cons_some key hrest, if_pos h1]
          rw [firstMinBy_cons_some key hrest,
            @firstMinBy_cons_some _ key d m (c :: rest) hinner]
        · have hinner : firstMinBy key (c :: rest) = some c := by
            rw [firstMinBy_cons_some key hrest, if_neg h1]
          rw [firstMinBy_cons_some key hrest,
            @firstMinBy_cons_some _ key d c (c :: rest) hinner,
            if_neg h2, if_neg (by omega)]

lemma foldl_min_none {α : Type} (key : α → Nat) :
    ∀ l : List α, l.foldl (minFold key) none = firstMinBy key l := by
  intro l
  cases l with
  | nil => rfl
  | cons c rest =>
    rw [List.foldl_cons, minFold_leer]
    exact foldl_min_some key rest c

lemma waehleSchritt_eq_minFold (paare : List (Nat × Nat))
    (klassen : List (List Nat)) (klasseIdx : Nat) :
    waehleSchritt paare klassen klasseIdx
      = (fun best c =>
          if (decide (c.2 ≠ klasseIdx)
              && decide (neueVerletzungen paare klassen c.1 c.2 = 0)) then
            minFold (fun c => (klassen.getD c.2 []).length) best c
          else best) := by
  funext best c
  unfold waehleSchritt
  by_cases h1 : c.2 = klasseIdx
  · rw [if_pos h1, if_neg (by simp [h1])]
  · by_cases h2 : neueVerletzungen paare klassen c.1 c.2 = 0
    · rw [if_neg h1, if_neg (by omega), if_pos (by simp [h1, h2])]
      cases best with
      | none => rfl
      | some d => rfl
    · rw [if_neg h1, if_pos (by omega), if_neg (by simp [h2])]

lemma waehleBeste_eq_firstMinBy (paare : List (Nat × Nat))
    (klassen : List (List Nat)) (klasseIdx a b : Nat) :
    waehleBeste paare klassen klasseIdx a b
      = firstMinBy (fun c => (klassen.getD c.2 []).length)
          (spezKandidaten paare klassen klasseIdx a b) := by
  unfold waehleBeste spezKandidaten
  rw [waehleSchritt_eq_minFold, foldl_if_filter, foldl_min_none]

lemma spezKandidaten_dekodieren {paare : List (Nat × Nat)}
    {klassen : List (List Nat)} {klasseIdx a b : Nat} {c : Nat × Nat}
    (h : c ∈ spezKandidaten paare klassen klasseIdx a b) :
    (c.1 = a ∨ c.1 = b) ∧ c.2 < klassen.length ∧ c.2 ≠ klasseIdx ∧
      neueVerletzungen paare klassen c.1 c.2 = 0 := by
  unfold spezKandidaten kandidatenOrdnung at h
  rw [List.mem_filter] at h
  obtain ⟨hmem, hp⟩ := h
  simp only [Bool.and_eq_true, decide_eq_true_eq] at hp
  simp only [List.mem_flatMap, List.mem_map, List.mem_range,
    List.mem_cons, List.mem_singleton] at hmem
  obtain ⟨s, hs, zi, hzi, rfl⟩ := hmem
  refine ⟨?_, hzi, hp.1, hp.2⟩
  simpa using hs

lemma kleinsteAndere_dekodieren {klassen : List (List Nat)} {klasseIdx j : Nat}
    (h : kleinsteAndereKlasse klassen klasseIdx = some j) :
    j < klassen.length ∧ j ≠ klasseIdx ∧
      ∀ zi, zi < klassen.length → zi ≠ klasseIdx →
        (klassen.getD j []).length ≤ (klassen.getD zi []).length := by
  have hmem := firstMinBy_mem _ _ _ h
  rw [List.mem_filter, List.mem_range] at hmem
  refine ⟨hmem.1, by simpa using hmem.2, ?_⟩
  intro zi hzi hne
  exact firstMinBy_kleinste _ _ _ h zi
    (by rw [List.mem_filter, List.mem_range]; exact ⟨hzi, by simpa using hne⟩)

lemma zuordnung_dekodieren {klassen : List (List Nat)} {s k : Nat}
    (h : zuordnung klassen s = some k) :
    k < klassen.length ∧ s ∈ klassen.getD k [] := by
  have haupt : ∀ (l : List Nat) (acc : Option Nat),
      (∀ k0, acc = some k0 → k0 < klassen.length ∧ s ∈ klassen.getD k0 []) →
      (∀ ki ∈ l, ki < klassen.length) →
      ∀ k0,
        l.foldl (fun acc ki => if s ∈ klassen.getD ki [] then some ki else acc)
          acc = some k0 →
        k0 < klassen.length ∧ s ∈ klassen.getD k0 [] := by
    intro l
    induction l with
    | nil => intro acc hacc _ k0 hk0; exact hacc k0 hk0
    | cons ki rest ih =>
      intro acc hacc hbound k0 hk0
      rw [List.foldl_cons] at hk0
      by_cases hmem : s ∈ klassen.getD ki []
      · rw [if_pos hmem] at hk0
        refine ih (some ki) ?_ (fun x hx => hbound x (List.mem_cons_of_mem _ hx))
          k0 hk0
        intro k1 hk1
        cases hk1
        exact ⟨hbound ki (List.mem_cons_self _ _), hmem⟩
      · rw [if_neg hmem] at hk0
        exact ih acc hacc (fun x hx => hbound x (List.mem_cons_of_mem _ hx)) k0 hk0
  exact haupt (List.range klassen.length) none (fun k0 hk0 => by cases hk0)
    (fun ki hki => List.mem_range.1 hki) k h

lemma waehleOderNotloesung_voll {paare : List (Nat × Nat)}
    {klassen : List (List Nat)} {klasseIdx a b : Nat} {c : Nat × Nat}
    (h : waehleBeste paare klassen klasseIdx a b = some c) :
    waehleOderNotloesung paare klassen klasseIdx a b = some c := by
  unfold waehleOderNotloesung
  rw [h]

lemma waehleOderNotloesung_leer {paare : List (Nat × Nat)}
    {klassen : List (List Nat)} {klasseIdx a b : Nat}
    (h : waehleBeste paare klassen klasseIdx a b = none) :
    waehleOderNotloesung paare klassen klasseIdx a b
      = (kleinsteAndereKlasse klassen klasseIdx).map (fun j => (b, j)) := by
  unfold waehleOderNotloesung
  rw [h]

lemma waehleOderNotloesung_dekodieren {paare : List (Nat × Nat)}
    {klassen : List (List Nat)} {klasseIdx a b : Nat} {c : Nat × Nat}
    (h : waehleOderNotloesung paare klassen klasseIdx a b = some c) :
    c.2 < klassen.length ∧ c.2 ≠ klasseIdx := by
  cases hw : waehleBeste paare klassen klasseIdx a b with
  | some d =>
    rw [waehleOderNotloesung_voll hw] at h
    cases h
    rw [waehleBeste_eq_firstMinBy] at hw
    have hmem := firstMinBy_mem _ _ _ hw
    have hd := spezKandidaten_dekodieren hmem
    exact ⟨hd.2.1, hd.2.2.1⟩
  | none =>
    rw [waehleOderNotloesung_leer hw] at h
    cases hk : kleinsteAndereKlasse klassen klasseIdx with
    | none => rw [hk] at h; cases h
    | some j =>
      rw [hk] at h
      cases h
      have hd := kleinsteAndere_dekodieren hk
      exact ⟨hd.1, hd.2.1⟩

lemma verschiebeSchritt_dekodieren {paare : List (Nat × Nat)}
    {klassen : List (List Nat)} {a b : Nat} {k2 : List (List Nat)}
    {e : LogEintrag} (h : verschiebeSchritt paare klassen a b = some (k2, e)) :
    ∃ i c, zuordnung klassen a = some i ∧
      waehleOderNotloesung paare klassen i a b = some c ∧
      c.2 < klassen.length ∧ c.2 ≠ i ∧ c.1 ∈ klassen.getD i [] ∧
      k2 = verschiebeListe klassen i c.2 c.1 ∧
      e = { schuelerId := c.1, vonKlasse := i + 1, nachKlasse := c.2 + 1,
            grundSchueler := if c.1 = b then a else b } := by
  unfold verschiebeSchritt at h
  cases hz : zuordnung klassen a with
  | none => rw [hz, Option.none_bind] at h; cases h
  | some i =>
    rw [hz, Option.some_bind] at h
    cases hw : waehleOderNotloesung paare klassen i a b with
    | none => rw [hw, Option.none_bind] at h; cases h
    | some c =>
      rw [hw, Option.some_bind] at h
      unfold fuehreVerschiebungAus at h
      by_cases hmem : c.1 ∈ klassen.getD i []
      · rw [if_pos hmem] at h
        obtain ⟨h1, h2⟩ := Prod.mk.injEq .. ▸ Option.some.injEq .. ▸ h
        have hd := waehleOderNotloesung_dekodieren hw
        exact ⟨i, c, rfl, hw, hd.1, hd.2, hmem, h1.symm, h2.symm⟩
      · rw [if_neg hmem] at h
        cases h

lemma flatten_set_multiset :
    ∀ (l : List (List Nat)) (i : Nat) (x : List Nat), i < l.length →
      (((l.set i x).flatten : List Nat) : Multiset Nat) + (l.getD i [] : List Nat)
        = ((l.flatten : List Nat) : Multiset Nat) + (x : List Nat) := by
  intro l
  induction l with
  | nil => intro i x h; simp at h
  | cons hd tl ih =>
    intro i x h
    cases i with
    | zero =>
      simp only [List.set_cons_zero, List.flatten_cons, List.getD_cons_zero]
      rw [← Multiset.coe_add, ← Multiset.coe_add]
      abel
    | succ i =>
      simp only [List.set_cons_succ, List.flatten_cons, List.getD_cons_succ]
      rw [← Multiset.coe_add, ← Multiset.coe_add]
      have hlt : i < tl.length := by
        simp only [List.length_cons] at h
        omega
      rw [add_assoc, add_assoc, ih i x hlt]

lemma verschiebe_erhalt (klassen : List (List Nat)) (i j s : Nat)
    (hi : i < klassen.length) (hj : j < klassen.length)
    (hs : s ∈ klassen.getD i []) :
    (((verschiebeListe klassen i j s).flatten : List Nat) : Multiset Nat)
        = (klassen.flatten : List Nat) ∧
      (verschiebeListe klassen i j s).length = klassen.length := by
  unfold verschiebeListe
  constructor
  · have h1 := flatten_set_multiset klassen i ((klassen.getD i []).erase s) hi
    have hlen1 : (klassen.set i ((klassen.getD i []).erase s)).length
        = klassen.length := by simp
    have h2 := flatten_set_multiset (klassen.set i ((klassen.getD i []).erase s))
      j (((klassen.set i ((klassen.getD i []).erase s)).getD j []) ++ [s])
      (by rw [hlen1]; exact hj)
    have hD : ((klassen.getD i [] : List Nat) : Multiset Nat)
        = {s} + ((klassen.getD i []).erase s : List Nat) := by
      rw [Multiset.singleton_add, Multiset.cons_coe]
      exact Multiset.coe_eq_coe.2 (List.perm_cons_erase hs)
    rw [hD] at h1
    have hK1 : (((klassen.set i ((klassen.getD i []).erase s)).flatten
          : List Nat) : Multiset Nat) + {s}
        = ((klassen.flatten : List Nat) : Multiset Nat) := by
      have hvor : (((klassen.set i ((klassen.getD i []).erase s)).flatten
            : List Nat) : Multiset Nat) + {s}
            + (((klassen.getD i []).erase s : List Nat) : Multiset Nat)
          = ((klassen.flatten : List Nat) : Multiset Nat)
            + (((klassen.getD i []).erase s : List Nat) : Multiset Nat) := by
        rw [add_assoc]
        exact h1
      exact add_right_cancel hvor
    rw [← Multiset.coe_add] at h2
    have h2' : (((klassen.set i ((klassen.getD i []).erase s)).set j
          (((klassen.set i ((klassen.getD i []).erase s)).getD j []) ++ [s])
          |>.flatten : List Nat) : Multiset Nat)
        = (((klassen.set i ((klassen.getD i []).erase s)).flatten
            : List Nat) : Multiset Nat) + {s} := by
      have hvor : (((klassen.set i ((klassen.getD i []).erase s)).set j
            (((klassen.set i ((klassen.getD i []).erase s)).getD j []) ++ [s])
            |>.flatten : List Nat) : Multiset Nat)
            + (((klassen.set i ((klassen.getD i []).erase s)).getD j []
              : List Nat) : Multiset Nat)
          = (((klassen.set i ((klassen.getD i []).erase s)).flatten
              : List Nat) : Multiset Nat) + {s}
            + (((klassen.set i ((klassen.getD i []).erase s)).getD j []
              : List Nat) : Multiset Nat) := by
        rw [h2, Multiset.coe_singleton]
        abel
      exact add_right_cancel hvor
    rw [h2', hK1]
  · simp

lemma erzwingeGo_null {paare : List (Nat × Nat)}
    {klassen : List (List Nat)} {log : List LogEintrag} :
    erzwingeGo paare 0 klassen log = some (klassen, log, false) := rfl

lemma erzwingeGo_leer {paare : List (Nat × Nat)} {fuel : Nat}
    {klassen : List (List Nat)} {log : List LogEintrag}
    (h : verletztePaare paare klassen = []) :
    erzwingeGo paare (fuel + 1) klassen log = some (klassen, log, true) := by
  rw [erzwingeGo, h]

lemma erzwingeGo_schritt {paare : List (Nat × Nat)} {fuel : Nat}
    {klassen : List (List Nat)} {log : List LogEintrag} {q : Nat × Nat}
    {rest : List (Nat × Nat)} (h : verletztePaare paare klassen = q :: rest) :
    erzwingeGo paare (fuel + 1) klassen log
      = (verschiebeSchritt paare klassen q.1 q.2).bind
          (fun r => erzwingeGo paare fuel r.1 (log ++ [r.2])) := by
  rw [erzwingeGo, h]

lemma verschiebeSchritt_erhalt {paare : List (Nat × Nat)}
    {klassen : List (List Nat)} {a b : Nat} {k2 : List (List Nat)}
    {e : LogEintrag} (h : verschiebeSchritt paare klassen a b = some (k2, e)) :
    ((k2.flatten : List Nat) : Multiset Nat) = (klassen.flatten : List Nat) ∧
      k2.length = klassen.length := by
  obtain ⟨i, c, hz, hw, hlt, hne, hmem, hk2, he⟩ := verschiebeSchritt_dekodieren h
  have hi := (zuordnung_dekodieren hz).1
  subst hk2
  exact verschiebe_erhalt klassen i c.2 c.1 hi hlt hmem

lemma erzwingeGo_erhalt (paare : List (Nat × Nat)) :
    ∀ (fuel : Nat) (klassen : List (List Nat)) (log : List LogEintrag)
      (k : List (List Nat)) (l2 : List LogEintrag) (fl : Bool),
      erzwingeGo paare fuel klassen log = some (k, l2, fl) →
      ((k.flatten : List Nat) : Multiset Nat) = (klassen.flatten : List Nat) ∧
        k.length = klassen.length := by
  intro fuel
  induction fuel with
  | zero =>
    intro klassen log k l2 fl h
    rw [erzwingeGo_null] at h
    cases h
    exact ⟨rfl, rfl⟩
  | succ fuel ih =>
    intro klassen log k l2 fl h
    cases hv : verletztePaare paare klassen with
    | nil =>
      rw [erzwingeGo_leer hv] at h
      cases h
      exact ⟨rfl, rfl⟩
    | cons q rest =>
      rw [erzwingeGo_schritt hv] at h
      cases hs : verschiebeSchritt paare klassen q.1 q.2 with
      | none => rw [hs, Option.none_bind] at h; cases h
      | some r =>
        obtain ⟨k2, e⟩ := r
        rw [hs, Option.some_bind] at h
        have schritt := verschiebeSchritt_erhalt hs
        have tail := ih k2 (log ++ [e]) k l2 fl h
        exact ⟨by rw [tail.1, schritt.1], by rw [tail.2, schritt.2]⟩

lemma erzwingeGo_erfolg (paare : List (Nat × Nat)) :
    ∀ (fuel : Nat) (klassen : List (List Nat)) (log : List LogEintrag)
      (k : List (List Nat)) (l2 : List LogEintrag),
      erzwingeGo paare fuel klassen log = some (k, l2, true) →
      verletztePaare paare k = [] := by
  intro fuel
  induction fuel with
  | zero =>
    intro klassen log k l2 h
    rw [erzwingeGo_null] at h
    simp at h
  | succ fuel ih =>
    intro klassen log k l2 h
    cases hv : verletztePaare paare klassen with
    | nil =>
      rw [erzwingeGo_leer hv] at h
      cases h
      exact hv
    | cons q rest =>
      rw [erzwingeGo_schritt hv] at h
      cases hs : verschiebeSchritt paare klassen q.1 q.2 with
      | none => rw [hs, Option.none_bind] at h; cases h
      | some r =>
        obtain ⟨k2, e⟩ := r
        rw [hs, Option.some_bind] at h
        exact ih k2 (log ++ [e]) k l2 h

lemma getClassName_null : getClassName 0 = "A" := by
  show String.mk (getClassNameListe 0) = "A"
  rw [getClassNameListe_klein 0 (by omega)]

lemma getClassName_eins : getClassName 1 = "B" := by
  show String.mk (getClassNameListe 1) = "B"
  rw [getClassNameListe_klein 1 (by omega)]

/-- C1, counterexample: the separation pairs of the 5-cycle
1–2–3–4–5–1 contain no mutually-separated triple, so the maximum
mutually-separated clique size is 2 — not above the class count 2 — yet
`_erzwinge_trennungen` returns after its `MAX_PASSES = 100` passes with the
pair (4, 5) still violated: an odd separation cycle admits no two-class
assignment with zero violations at all. -/
theorem c1_gegenbeispiel :
    hatDreiClique [(1, 2), (2, 3), (3, 4), (4, 5), (1, 5)] = false ∧
      ([[1, 2, 3, 4, 5], []] : List (List Nat)).length = 2 ∧
      (erzwingeTrennungenPaare [(1, 2), (2, 3), (3, 4), (4, 5), (1, 5)]
          [[1, 2, 3, 4, 5], []]).map
        (fun r => verletztePaare [(1, 2), (2, 3), (3, 4), (4, 5), (1, 5)] r.1)
        = some [(4, 5)] :=
  ⟨by decide, rfl, by decide⟩

/-- C1, amended: the repair loop performs at most `MAX_PASSES = 100` outer
passes, and whenever it exits through the early `break` — i.e. some pass
finds no violated pair — the returned partition has zero violated pairs.  A
separation set whose maximum mutually-separated clique size is at most the
class count does **not** guarantee this (see the counterexample): residual
violations can survive all 100 passes. -/
theorem c1_amendiert (paare : List (Nat × Nat)) (eint k : List (List Nat))
    (log : List LogEintrag)
    (h : erzwingeGo paare maxDurchlaeufe eint [] = some (k, log, true)) :
    erzwingeTrennungenPaare paare eint = some (k, log) ∧
      verletztePaare paare k = [] := by
  refine ⟨?_, erzwingeGo_erfolg paare _ _ _ _ _ h⟩
  unfold erzwingeTrennungenPaare
  by_cases hp : paare = []
  · subst hp
    rw [if_pos rfl]
    have h' : (some (eint, ([] : List LogEintrag), true)
        : Option (List (List Nat) × List LogEintrag × Bool))
        = some (k, log, true) := h
    cases h'
    rfl
  · rw [if_neg hp, h]
    rfl

/-- C1, witness for the amended theorem: one violated pair, two classes — the
loop breaks in its second pass, and the result has zero violated pairs. -/
theorem c1_amendiert_zeuge :
    erzwingeGo [(1, 2)] maxDurchlaeufe [[1, 2], []] []
        = some ([[2], [1]], [⟨1, 1, 2, 2⟩], true) ∧
      erzwingeTrennungenPaare [(1, 2)] [[1, 2], []]
        = some ([[2], [1]], [⟨1, 1, 2, 2⟩]) ∧
      verletztePaare [(1, 2)] [[2], [1]] = [] := by
  have h : erzwingeGo [(1, 2)] maxDurchlaeufe [[1, 2], []] []
      = some ([[2], [1]], [⟨1, 1, 2, 2⟩], true) := by decide
  have r := c1_amendiert [(1, 2)] [[1, 2], []] [[2], [1]] [⟨1, 1, 2, 2⟩] h
  exact ⟨h, r.1, r.2⟩

/-- C2: on a valid input partition (duplicate-free flattening — i.e. the
buckets are duplicate-free and pairwise disjoint — whose student multiset is
the roster index), `_erzwinge_trennungen` returns a partition that is again
valid over the same roster with an unchanged bucket count: every repair move
removes its student from exactly one bucket and appends them to exactly one
other bucket. -/
theorem c2_invarianten (df : Df) (eint k : List (List Nat))
    (log : List LogEintrag) (hnd : eint.flatten.Nodup)
    (hrost : eint.flatten.Perm (dfIndex df))
    (h : erzwingeTrennungen df eint = some (k, log)) :
    k.flatten.Nodup ∧ List.Pairwise List.Disjoint k ∧
      k.flatten.Perm (dfIndex df) ∧
      (∀ s, s ∈ k.flatten ↔ s ∈ dfIndex df) ∧ k.length = eint.length := by
  have haupt : k.flatten.Perm eint.flatten ∧ k.length = eint.length := by
    unfold erzwingeTrennungen erzwingeTrennungenPaare at h
    by_cases hp : alleTrennungspaare df = []
    · rw [if_pos hp] at h
      cases h
      exact ⟨List.Perm.refl _, rfl⟩
    · rw [if_neg hp] at h
      obtain ⟨⟨k', l', fl⟩, hgo, hkl⟩ := Option.map_eq_some'.1 h
      obtain ⟨rfl, rfl⟩ := Prod.mk.injEq .. ▸ hkl
      have he := erzwingeGo_erhalt (alleTrennungspaare df)
        maxDurchlaeufe eint [] k' l' fl hgo
      exact ⟨Multiset.coe_eq_coe.1 he.1, he.2⟩
  have hperm : k.flatten.Perm (dfIndex df) := haupt.1.trans hrost
  have hknd : k.flatten.Nodup := haupt.1.symm.nodup hnd
  exact ⟨hknd, (List.nodup_flatten.1 hknd).2, hperm,
    fun s => hperm.mem_iff, haupt.2⟩

/-- C2, witness: a roster of three students with one separation pair; the
repair moves student 1 and returns a valid two-bucket partition of the same
roster. -/
theorem c2_invarianten_zeuge :
    ([[1, 2], [3]] : List (List Nat)).flatten.Nodup ∧
      ([[1, 2], [3]] : List (List Nat)).flatten.Perm
        (dfIndex [(1, [2]), (2, []), (3, [])]) ∧
      erzwingeTrennungen [(1, [2]), (2, []), (3, [])] [[1, 2], [3]]
        = some ([[2], [3, 1]], [⟨1, 1, 2, 2⟩]) ∧
      ([[2], [3, 1]] : List (List Nat)).flatten.Nodup ∧
      ([[2], [3, 1]] : List (List Nat)).flatten.Perm
        (dfIndex [(1, [2]), (2, []), (3, [])]) ∧
      ([[2], [3, 1]] : List (List Nat)).length = 2 := by
  have h1 : ([[1, 2], [3]] : List (List Nat)).flatten.Nodup := by decide
  have h2 : ([[1, 2], [3]] : List (List Nat)).flatten.Perm
      (dfIndex [(1, [2]), (2, []), (3, [])]) := List.Perm.refl _
  have h3 : erzwingeTrennungen [(1, [2]), (2, []), (3, [])] [[1, 2], [3]]
      = some ([[2], [3, 1]], [⟨1, 1, 2, 2⟩]) := by decide
  have r := c2_invarianten [(1, [2]), (2, []), (3, [])] [[1, 2], [3]]
    [[2], [3, 1]] [⟨1, 1, 2, 2⟩] h1 h2 h3
  exact ⟨h1, h2, h3, r.1, r.2.2.1, r.2.2.2.2⟩

/-- C4: in every repair pass, the selected move equals the specification's
choice — the first candidate, in the fixed scan order over students `(a, b)`
and ascending class indices, among the zero-new-violation moves whose target
class size is minimal; and when no such candidate exists, the pass falls back
to moving `b` into the currently smallest other class (the resulting log
entry then names `b` and that class). -/
theorem c4_auswahl (paare : List (Nat × Nat)) (klassen : List (List Nat))
    (klasseIdx a b : Nat) :
    (waehleBeste paare klassen klasseIdx a b
      = firstMinBy (fun c => (klassen.getD c.2 []).length)
          (spezKandidaten paare klassen klasseIdx a b)) ∧
    (∀ c, waehleBeste paare klassen klasseIdx a b = some c →
      c ∈ spezKandidaten paare klassen klasseIdx a b ∧
        ∀ d ∈ spezKandidaten paare klassen klasseIdx a b,
          (klassen.getD c.2 []).length ≤ (klassen.getD d.2 []).length) ∧
    (spezKandidaten paare klassen klasseIdx a b = [] →
      (waehleOderNotloesung paare klassen klasseIdx a b
        = (kleinsteAndereKlasse klassen klasseIdx).map (fun j => (b, j))) ∧
      (∀ j, kleinsteAndereKlasse klassen klasseIdx = some j →
        j < klassen.length ∧ j ≠ klasseIdx ∧
          ∀ zi, zi < klassen.length → zi ≠ klasseIdx →
            (klassen.getD j []).length ≤ (klassen.getD zi []).length) ∧
      (∀ k2 e, zuordnung klassen a = some klasseIdx →
        verschiebeSchritt paare klassen a b = some (k2, e) →
        e.schuelerId = b ∧ e.grundSchueler = a ∧
          ∃ j, kleinsteAndereKlasse klassen klasseIdx = some j ∧
            e.nachKlasse = j + 1)) := by
  have hleer_waehle : spezKandidaten paare klassen klasseIdx a b = [] →
      waehleBeste paare klassen klasseIdx a b = none := by
    intro hleer
    rw [waehleBeste_eq_firstMinBy, hleer]
    rfl
  refine ⟨waehleBeste_eq_firstMinBy paare klassen klasseIdx a b, ?_, ?_⟩
  · intro c hc
    rw [waehleBeste_eq_firstMinBy] at hc
    exact ⟨firstMinBy_mem _ _ _ hc, firstMinBy_kleinste _ _ _ hc⟩
  · intro hleer
    refine ⟨waehleOderNotloesung_leer (hleer_waehle hleer), ?_, ?_⟩
    · intro j hj
      exact kleinsteAndere_dekodieren hj
    · intro k2 e hz h
      obtain ⟨i, c, hz2, hw, hlt, hne, hmem, hk2, he⟩ :=
        verschiebeSchritt_dekodieren h
      rw [hz] at hz2
      cases hz2
      rw [waehleOderNotloesung_leer (hleer_waehle hleer)] at hw
      cases hk : kleinsteAndereKlasse klassen klasseIdx with
      | none => rw [hk] at hw; cases hw
      | some j =>
        rw [hk] at hw
        cases hw
        subst he
        exact ⟨rfl, by simp, j, rfl, rfl⟩

/-- C4, witness: a triangle of separations in two classes — both candidate
moves would create a new violation, so the candidate set is empty and the
fallback moves `b = 2` into the smallest other class (class index 1). -/
theorem c4_auswahl_zeuge :
    spezKandidaten [(1, 2), (1, 3), (2, 3)] [[1, 2], [3]] 0 1 2 = [] ∧
      zuordnung [[1, 2], [3]] 1 = some 0 ∧
      verschiebeSchritt [(1, 2), (1, 3), (2, 3)] [[1, 2], [3]] 1 2
        = some ([[1], [3, 2]], ⟨2, 1, 2, 1⟩) ∧
      (⟨2, 1, 2, 1⟩ : LogEintrag).schuelerId = 2 ∧
      (⟨2, 1, 2, 1⟩ : LogEintrag).grundSchueler = 1 ∧
      ∃ j, kleinsteAndereKlasse [[1, 2], [3]] 0 = some j ∧
        (⟨2, 1, 2, 1⟩ : LogEintrag).nachKlasse = j + 1 := by
  have hleer : spezKandidaten [(1, 2), (1, 3), (2, 3)] [[1, 2], [3]] 0 1 2
      = [] := by decide
  have hz : zuordnung [[1, 2], [3]] 1 = some 0 := by decide
  have hs : verschiebeSchritt [(1, 2), (1, 3), (2, 3)] [[1, 2], [3]] 1 2
      = some ([[1], [3, 2]], ⟨2, 1, 2, 1⟩) := by decide
  have r := ((c4_auswahl [(1, 2), (1, 3), (2, 3)] [[1, 2], [3]] 0 1 2).2.2
    hleer).2.2 [[1], [3, 2]] ⟨2, 1, 2, 1⟩ hz hs
  exact ⟨hleer, hz, hs, r.1, r.2.1, r.2.2⟩

/-- C9, counterexample: a repair move of student 1 out of the first class is
logged with the numeric class identifiers `von_klasse = 1`, `nach_klasse = 2`
(1-based indices), while the Quality Assessor names those classes "A" and "B"
via `_get_class_name` — the log does not use the letter names. -/
theorem c9_gegenbeispiel :
    erzwingeTrennungenPaare [(1, 2)] [[1, 2], []]
        = some ([[2], [1]], [⟨1, 1, 2, 2⟩]) ∧
      (⟨1, 1, 2, 2⟩ : LogEintrag).vonKlasse = 1 ∧
      (⟨1, 1, 2, 2⟩ : LogEintrag).nachKlasse = 2 ∧
      Nat.repr (⟨1, 1, 2, 2⟩ : LogEintrag).vonKlasse ≠ getClassName 0 ∧
      Nat.repr (⟨1, 1, 2, 2⟩ : LogEintrag).nachKlasse ≠ getClassName 1 := by
  refine ⟨by decide, rfl, rfl, ?_, ?_⟩
  · rw [getClassName_null]
    decide
  · rw [getClassName_eins]
    decide

/-- C9, amended: every repair-log entry identifies the source and destination
class by their 1-based numeric indices (`von_klasse = source index + 1`,
`nach_klasse = target index + 1`), not by the base-26 letter names the
Quality Assessor's reports use. -/
theorem c9_amendiert (paare : List (Nat × Nat)) (klassen : List (List Nat))
    (a b : Nat) (k2 : List (List Nat)) (e : LogEintrag)
    (h : verschiebeSchritt paare klassen a b = some (k2, e)) :
    ∃ i j, zuordnung klassen a = some i ∧ j < klassen.length ∧ j ≠ i ∧
      e.vonKlasse = i + 1 ∧ e.nachKlasse = j + 1 := by
  obtain ⟨i, c, hz, hw, hlt, hne, hmem, hk2, he⟩ := verschiebeSchritt_dekodieren h
  subst he
  exact ⟨i, c.2, hz, hlt, hne, rfl, rfl⟩

/-- C9, witness for the amended theorem at the counterexample's repair move. -/
theorem c9_amendiert_zeuge :
    verschiebeSchritt [(1, 2)] [[1, 2], []] 1 2
        = some ([[2], [1]], ⟨1, 1, 2, 2⟩) ∧
      ∃ i j, zuordnung [[1, 2], []] 1 = some i ∧
        j < ([[1, 2], []] : List (List Nat)).length ∧ j ≠ i ∧
        (⟨1, 1, 2, 2⟩ : LogEintrag).vonKlasse = i + 1 ∧
        (⟨1, 1, 2, 2⟩ : LogEintrag).nachKlasse = j + 1 := by
  have h : verschiebeSchritt [(1, 2)] [[1, 2], []] 1 2
      = some ([[2], [1]], ⟨1, 1, 2, 2⟩) := by decide
  exact ⟨h, c9_amendiert [(1, 2)] [[1, 2], []] 1 2 [[2], [1]] ⟨1, 1, 2, 2⟩ h⟩

lemma foldl_inv_mem {α β : Type} (P : β → Prop) (f : β → α → β) :
    ∀ l : List α, (∀ b a, a ∈ l → P b → P (f b a)) →
      ∀ b, P b → P (l.foldl f b) := by
  intro l
  induction l with
  | nil => intro _ b hb; exact hb
  | cons a rest ih =>
    intro hf b hb
    rw [List.foldl_cons]
    exact ih (fun b2 x hx hb2 => hf b2 x (List.mem_cons_of_mem a hx) hb2) _
      (hf b a (List.mem_cons_self a rest) hb)

lemma alleTrennungspaare_sortiert (df : Df) :
    ∀ p ∈ alleTrennungspaare df, p.1 < p.2 := by
  unfold alleTrennungspaare
  refine foldl_inv_mem
    (fun acc : List (Nat × Nat) => ∀ p ∈ acc, p.1 < p.2) _ df ?_ [] (by simp)
  intro acc zeile _ hacc
  refine foldl_inv_mem
    (fun acc : List (Nat × Nat) => ∀ p ∈ acc, p.1 < p.2) _ zeile.2 ?_ acc hacc
  intro acc2 tv _ hacc2
  by_cases hcond : 0 < tv ∧ tv ∈ dfIndex df ∧ tv ≠ zeile.1
  · rw [if_pos hcond]
    unfold fuegePaarEin
    by_cases hmem : (min zeile.1 tv, max zeile.1 tv) ∈ acc2
    · rw [if_pos hmem]
      exact hacc2
    · rw [if_neg hmem]
      intro p hp
      rcases List.mem_append.1 hp with hp | hp
      · exact hacc2 p hp
      · simp only [List.mem_singleton] at hp
        subst hp
        show min zeile.1 tv < max zeile.1 tv
        have := hcond.2.2
        omega
  · rw [if_neg hcond]
    exact hacc2

lemma sucheWert_mem : ∀ (m : List (Nat × Nat)) (k v : Nat),
    sucheWert m k = some v → (k, v) ∈ m := by
  intro m
  induction m with
  | nil => intro k v h; cases h
  | cons e rest ih =>
    intro k v h
    rw [sucheWert] at h
    by_cases hk : e.1 = k
    · rw [if_pos hk] at h
      cases h
      subst hk
      simp
    · rw [if_neg hk] at h
      exact List.mem_cons_of_mem _ (ih k v h)

lemma sucheWert_append_links : ∀ (m m2 : List (Nat × Nat)) (k v : Nat),
    sucheWert m k = some v → sucheWert (m ++ m2) k = some v := by
  intro m
  induction m with
  | nil => intro m2 k v h; cases h
  | cons e rest ih =>
    intro m2 k v h
    rw [sucheWert] at h
    rw [List.cons_append, sucheWert]
    by_cases hk : e.1 = k
    · rw [if_pos hk] at h
      rw [if_pos hk]
      exact h
    · rw [if_neg hk] at h
      rw [if_neg hk]
      exact ih m2 k v h

lemma sucheWert_append_rechts : ∀ (m m2 : List (Nat × Nat)) (k : Nat),
    sucheWert m k = none → sucheWert (m ++ m2) k = sucheWert m2 k := by
  intro m
  induction m with
  | nil => intro m2 k _; rfl
  | cons e rest ih =>
    intro m2 k h
    rw [sucheWert] at h
    rw [List.cons_append, sucheWert]
    by_cases hk : e.1 = k
    · rw [if_pos hk] at h
      cases h
    · rw [if_neg hk] at h
      rw [if_neg hk]
      exact ih m2 k h

lemma sucheWert_einzeln (k v : Nat) : sucheWert [(k, v)] k = some v := by
  rw [sucheWert, if_pos rfl]

lemma isSome_von_nicht_isNone {α : Type} {o : Option α}
    (h : ¬ o.isNone = true) : o.isSome = true := by
  cases o with
  | none => exact absurd rfl h
  | some v => rfl

lemma sucheWert_append_isSome (m m2 : List (Nat × Nat)) (k : Nat)
    (h : (sucheWert m k).isSome = true) :
    (sucheWert (m ++ m2) k).isSome = true := by
  obtain ⟨v, hv⟩ := Option.isSome_iff_exists.1 h
  rw [sucheWert_append_links m m2 k v hv]
  rfl

lemma trennMapSchritt_erweitert (m : List (Nat × Nat)) (p : Nat × Nat) :
    ∃ z, trennMapSchritt m p = m ++ z := by
  unfold trennMapSchritt trennMapSchrittB
  by_cases h1 : (sucheWert m (min p.1 p.2)).isNone = true
  · rw [if_pos h1]
    by_cases h2 : (sucheWert (m ++ [(min p.1 p.2, max p.1 p.2)])
        (max p.1 p.2)).isNone = true
    · rw [if_pos h2]
      exact ⟨[(min p.1 p.2, max p.1 p.2)] ++ [(max p.1 p.2, min p.1 p.2)],
        by rw [List.append_assoc]⟩
    · rw [if_neg h2]
      exact ⟨_, rfl⟩
  · rw [if_neg h1]
    by_cases h2 : (sucheWert m (max p.1 p.2)).isNone = true
    · rw [if_pos h2]
      exact ⟨_, rfl⟩
    · rw [if_neg h2]
      exact ⟨[], (List.append_nil m).symm⟩

lemma trennMapSchritt_isSome_mono (m : List (Nat × Nat)) (p : Nat × Nat)
    (k : Nat) (h : (sucheWert m k).isSome = true) :
    (sucheWert (trennMapSchritt m p) k).isSome = true := by
  obtain ⟨z, hz⟩ := trennMapSchritt_erweitert m p
  rw [hz]
  exact sucheWert_append_isSome m z k h

lemma trennMapSchritt_enthaelt (m : List (Nat × Nat)) (p : Nat × Nat) :
    (sucheWert (trennMapSchritt m p) (min p.1 p.2)).isSome = true ∧
      (sucheWert (trennMapSchritt m p) (max p.1 p.2)).isSome = true := by
  unfold trennMapSchritt trennMapSchrittB
  by_cases h1 : (sucheWert m (min p.1 p.2)).isNone = true
  · rw [if_pos h1]
    have hm1 : (sucheWert (m ++ [(min p.1 p.2, max p.1 p.2)])
        (min p.1 p.2)).isSome = true := by
      rw [sucheWert_append_rechts m _ _ (Option.isNone_iff_eq_none.1 h1),
        sucheWert_einzeln]
      rfl
    by_cases h2 : (sucheWert (m ++ [(min p.1 p.2, max p.1 p.2)])
        (max p.1 p.2)).isNone = true
    · rw [if_pos h2]
      refine ⟨sucheWert_append_isSome _ _ _ hm1, ?_⟩
      rw [sucheWert_append_rechts _ _ _ (Option.isNone_iff_eq_none.1 h2),
        sucheWert_einzeln]
      rfl
    · rw [if_neg h2]
      exact ⟨hm1, isSome_von_nicht_isNone h2⟩
  · rw [if_neg h1]
    by_cases h2 : (sucheWert m (max p.1 p.2)).isNone = true
    · rw [if_pos h2]
      refine ⟨sucheWert_append_isSome _ _ _ (isSome_von_nicht_isNone h1), ?_⟩
      rw [sucheWert_append_rechts m _ _ (Option.isNone_iff_eq_none.1 h2),
        sucheWert_einzeln]
      rfl
    · rw [if_neg h2]
      exact ⟨isSome_von_nicht_isNone h1, isSome_von_nicht_isNone h2⟩

lemma foldl_sucheWert_mono (l : List (Nat × Nat)) (m : List (Nat × Nat))
    (k : Nat) (h : (sucheWert m k).isSome = true) :
    (sucheWert (l.foldl trennMapSchritt m) k).isSome = true := by
  refine foldl_inv_mem (fun m2 => (sucheWert m2 k).isSome = true)
    trennMapSchritt l ?_ m h
  intro m2 p _ hm2
  exact trennMapSchritt_isSome_mono m2 p k hm2

lemma baueTrennMap_dekodieren (paare : List (Nat × Nat))
    (hsort : ∀ p ∈ paare, p.1 < p.2) :
    ∀ e ∈ baueTrennMap paare, (min e.1 e.2, max e.1 e.2) ∈ paare := by
  unfold baueTrennMap
  refine foldl_inv_mem
    (fun m => ∀ e ∈ m, (min e.1 e.2, max e.1 e.2) ∈ paare)
    trennMapSchritt paare ?_ [] (by simp)
  intro m p hp hm
  have hps := hsort p hp
  have hneu1 : (min (min p.1 p.2) (max p.1 p.2),
      max (min p.1 p.2) (max p.1 p.2)) ∈ paare := by
    have he1 : min (min p.1 p.2) (max p.1 p.2) = p.1 := by omega
    have he2 : max (min p.1 p.2) (max p.1 p.2) = p.2 := by omega
    rw [he1, he2]
    exact hp
  have hneu2 : (min (max p.1 p.2) (min p.1 p.2),
      max (max p.1 p.2) (min p.1 p.2)) ∈ paare := by
    have he1 : min (max p.1 p.2) (min p.1 p.2) = p.1 := by omega
    have he2 : max (max p.1 p.2) (min p.1 p.2) = p.2 := by omega
    rw [he1, he2]
    exact hp
  obtain ⟨z, hz⟩ := trennMapSchritt_erweitert m p
  have hzmem : ∀ e ∈ z, (min e.1 e.2, max e.1 e.2) ∈ paare := by
    have halle : ∀ e ∈ m ++ z, e ∈ m ∨
        e = (min p.1 p.2, max p.1 p.2) ∨ e = (max p.1 p.2, min p.1 p.2) := by
      rw [← hz]
      unfold trennMapSchritt trennMapSchrittB
      intro e he
      by_cases h1 : (sucheWert m (min p.1 p.2)).isNone = true
      · rw [if_pos h1] at he
        by_cases h2 : (sucheWert (m ++ [(min p.1 p.2, max p.1 p.2)])
            (max p.1 p.2)).isNone = true
        · rw [if_pos h2] at he
          simp only [List.mem_append, List.mem_singleton] at he
          tauto
        · rw [if_neg h2] at he
          simp only [List.mem_append, List.mem_singleton] at he
          tauto
      · rw [if_neg h1] at he
        by_cases h2 : (sucheWert m (max p.1 p.2)).isNone = true
        · rw [if_pos h2] at he
          simp only [List.mem_append, List.mem_singleton] at he
          tauto
        · rw [if_neg h2] at he
          tauto
    intro e he
    rcases halle e (List.mem_append_right m he) with hmm | rfl | rfl
    · exact hm e hmm
    · exact hneu1
    · exact hneu2
  intro e he
  rw [hz] at he
  rcases List.mem_append.1 he with he | he
  · exact hm e he
  · exact hzmem e he

lemma baueTrennMap_vollstaendig (paare : List (Nat × Nat)) :
    ∀ p ∈ paare,
      (sucheWert (baueTrennMap paare) (min p.1 p.2)).isSome = true ∧
      (sucheWert (baueTrennMap paare) (max p.1 p.2)).isSome = true := by
  unfold baueTrennMap
  suffices haupt : ∀ (l : List (Nat × Nat)) (m : List (Nat × Nat)), ∀ p ∈ l,
      (sucheWert (l.foldl trennMapSchritt m) (min p.1 p.2)).isSome = true ∧
      (sucheWert (l.foldl trennMapSchritt m) (max p.1 p.2)).isSome = true by
    exact fun p hp => haupt paare [] p hp
  intro l
  induction l with
  | nil => intro m p hp; simp at hp
  | cons q rest ih =>
    intro m p hp
    rw [List.foldl_cons]
    rcases List.mem_cons.1 hp with rfl | hp
    · have hkeys := trennMapSchritt_enthaelt m p
      exact ⟨foldl_sucheWert_mono rest _ _ hkeys.1,
        foldl_sucheWert_mono rest _ _ hkeys.2⟩
    · exact ih (trennMapSchritt m q) p hp

lemma zaehleKlassenTrennungen_gesamt (df : Df) (klasseIds : List Nat) :
    (zaehleKlassenTrennungen df klasseIds).1
      = volleTrennEintraege df klasseIds := by
  unfold zaehleKlassenTrennungen volleTrennEintraege
  have hinner : ∀ (tvs : List Nat) (z : Nat × Nat),
      (tvs.foldl (fun z tv => if 0 < tv then
          (z.1 + 1, if tv ∈ klasseIds then z.2 + 1 else z.2) else z) z).1
        = z.1 + (tvs.filter (fun tv => decide (0 < tv))).length := by
    intro tvs
    induction tvs with
    | nil => intro z; simp
    | cons tv rest ih =>
      intro z
      rw [List.foldl_cons]
      by_cases h : 0 < tv
      · rw [if_pos h, ih, List.filter_cons_of_pos (by simpa using h),
          List.length_cons]
        omega
      · rw [if_neg h, ih, List.filter_cons_of_neg (by simpa using h)]
  have haupt : ∀ (ids : List Nat) (z : Nat × Nat),
      (ids.foldl (fun z sid => (dfZeile df sid).foldl (fun z tv =>
          if 0 < tv then (z.1 + 1, if tv ∈ klasseIds then z.2 + 1 else z.2)
          else z) z) z).1
        = z.1 + ((ids.map (fun sid =>
            (dfZeile df sid).filter (fun tv => decide (0 < tv)))).flatten).length := by
    intro ids
    induction ids with
    | nil => intro z; simp
    | cons sid rest ih =>
      intro z
      rw [List.foldl_cons, ih, hinner, List.map_cons, List.flatten_cons,
        List.length_append]
      omega
  simpa using haupt klasseIds (0, 0)

/-- C5: `_df_fuer_submodul` gives the Annealing Search a DataFrame with a
single `Trennen_Von` column holding at most one partner per student, each
drawn from the canonical full pair set and assigned bidirectionally (both
members of every pair receive a partner), while `_erzwinge_trennungen` and
the Quality Assessor's separation count are applied to the full pairwise set
from all `Trennen_Von*` columns of the original DataFrame. -/
theorem c5_konsolidierung (df : Df) :
    ((dfFuerSubmodul df).map Prod.fst = dfIndex df) ∧
    (∀ z ∈ dfFuerSubmodul df, ∃ tv, z.2 = [tv] ∧
        (tv = 0 ∨ (min z.1 tv, max z.1 tv) ∈ alleTrennungspaare df)) ∧
    (∀ p ∈ alleTrennungspaare df,
        (sucheWert (baueTrennMap (alleTrennungspaare df)) p.1).isSome = true ∧
        (sucheWert (baueTrennMap (alleTrennungspaare df)) p.2).isSome = true) ∧
    (∀ suche : Df → List (List Nat),
        starteOptimierungKern df suche
          = erzwingeTrennungenPaare (alleTrennungspaare df)
              (suche (dfFuerSubmodul df))) ∧
    (∀ klasseIds, (zaehleKlassenTrennungen df klasseIds).1
        = volleTrennEintraege df klasseIds) := by
  refine ⟨?_, ?_, ?_, fun suche => rfl,
    fun klasseIds => zaehleKlassenTrennungen_gesamt df klasseIds⟩
  · unfold dfFuerSubmodul dfIndex
    rw [List.map_map]
    rfl
  · intro z hz
    simp only [dfFuerSubmodul, List.mem_map] at hz
    obtain ⟨zeile, hzeile, rfl⟩ := hz
    refine ⟨(sucheWert (baueTrennMap (alleTrennungspaare df)) zeile.1).getD 0,
      rfl, ?_⟩
    cases hterm : sucheWert (baueTrennMap (alleTrennungspaare df)) zeile.1 with
    | none => exact Or.inl rfl
    | some v =>
      right
      have hmem := sucheWert_mem _ _ _ hterm
      have hp := baueTrennMap_dekodieren (alleTrennungspaare df)
        (alleTrennungspaare_sortiert df) (zeile.1, v) hmem
      exact hp
  · intro p hp
    have hs := alleTrennungspaare_sortiert df p hp
    have hv := baueTrennMap_vollstaendig (alleTrennungspaare df) p hp
    rw [Nat.min_eq_left (le_of_lt hs), Nat.max_eq_right (le_of_lt hs)] at hv
    exact hv

/-- C5, witness: a roster where student 1 must be separated from 2 and 3;
the consolidated DataFrame gives student 2 the single partner 1, drawn from
the full pair set, and both members of the pair (1, 2) have entries. -/
theorem c5_konsolidierung_zeuge :
    ((2, [1]) ∈ dfFuerSubmodul [(1, [2, 3]), (2, []), (3, [])]) ∧
      (∃ tv, ((2 : Nat), [(1 : Nat)]).2 = [tv] ∧
        (tv = 0 ∨ (min 2 tv, max 2 tv)
          ∈ alleTrennungspaare [(1, [2, 3]), (2, []), (3, [])])) ∧
      ((1, 2) ∈ alleTrennungspaare [(1, [2, 3]), (2, []), (3, [])]) ∧
      (sucheWert (baueTrennMap
          (alleTrennungspaare [(1, [2, 3]), (2, []), (3, [])])) 1).isSome
        = true ∧
      (sucheWert (baueTrennMap
          (alleTrennungspaare [(1, [2, 3]), (2, []), (3, [])])) 2).isSome
        = true := by
  have h1 : (2, [1]) ∈ dfFuerSubmodul [(1, [2, 3]), (2, []), (3, [])] := by
    decide
  have h2 : ((1 : Nat), (2 : Nat))
      ∈ alleTrennungspaare [(1, [2, 3]), (2, []), (3, [])] := by decide
  have r2 := (c5_konsolidierung [(1, [2, 3]), (2, []), (3, [])]).2.1 _ h1
  have r3 := (c5_konsolidierung [(1, [2, 3]), (2, []), (3, [])]).2.2.1 _ h2
  exact ⟨h1, r2, h2, r3.1, r3.2⟩

end Klasseneinteilung
